import Mathlib

/-!
A shallow embedding of the `tiny-tfidf` library (BM25 term weighting over an
in-memory corpus) and proofs about it.

Numbers that the JavaScript source manipulates as IEEE doubles are modelled as
real numbers; JavaScript `Map`s are modelled as association lists in insertion
order; exceptions are modelled with `Except`; `undefined` results are modelled
with `Option`.
-/

namespace TinyTfidf

/-- Errors a corpus-building or query operation can raise: `invalidInput` models
the explicit `throw new Error(...)` in `Corpus.from`, `typeError` models the
JavaScript `TypeError` raised when calling a method on `null`/`undefined`. -/
inductive JsError where
  | invalidInput
  | typeError
deriving DecidableEq, Repr

/-- Character class of the token-extraction regex `/[a-zA-ZÀ-ÖØ-öø-ÿ]+/g` in
`TextDocument`'s constructor. -/
def isLetterChar (c : Char) : Bool :=
  (65 ≤ c.val && c.val ≤ 90) || (97 ≤ c.val && c.val ≤ 122) ||
  (192 ≤ c.val && c.val ≤ 214) || (216 ≤ c.val && c.val ≤ 246) ||
  (248 ≤ c.val && c.val ≤ 255)

/-- Character class of the regex `/^\d/` used to reject words starting with a
digit. -/
def isDigitChar (c : Char) : Bool :=
  48 ≤ c.val && c.val ≤ 57

/-- JavaScript `toLowerCase` restricted to the characters the token regex can
produce: ASCII uppercase and the Latin-1 uppercase letters map down by 32. -/
def jsToLower (c : Char) : Char :=
  if (65 ≤ c.val && c.val ≤ 90) || (192 ≤ c.val && c.val ≤ 214) ||
      (216 ≤ c.val && c.val ≤ 222) then
    Char.ofNat (c.toNat + 32)
  else c

/-- Splits a character list into the maximal runs of letter characters, i.e.
the list of matches of `/[a-zA-ZÀ-ÖØ-öø-ÿ]+/g`.  `acc` holds the (reversed)
letters of the run currently being read. -/
def letterRuns : List Char → List Char → List (List Char)
  | [], acc => if acc.isEmpty then [] else [acc.reverse]
  | c :: rest, acc =>
    if isLetterChar c then letterRuns rest (c :: acc)
    else if acc.isEmpty then letterRuns rest []
    else acc.reverse :: letterRuns rest []

/-- Word filter from `TextDocument`'s constructor: drop words of fewer than two
characters and words starting with a digit. -/
def keepWord (w : List Char) : Bool :=
  !(w.length < 2 || (match w with | [] => false | c :: _ => isDigitChar c))

/-- Token computation of `TextDocument`'s constructor: `text.match(regex)`
returns `null` when the text has no letter at all, and calling `.filter` on
that `null` raises a `TypeError` (modelled as `none`); otherwise the matched
words are filtered and lowercased. -/
def textDocumentWords (text : String) : Option (List String) :=
  match letterRuns text.data [] with
  | [] => none
  | runs => some (((runs.filter keepWord).map (fun w => String.mk (w.map jsToLower))))

/-- One step of the frequency-map construction shared by
`Document._calculateTermFrequencies` and
`Corpus._calculateCollectionFrequencies`: if the key is present its count is
incremented in place, otherwise a fresh entry with count 1 is appended (the
JavaScript `Map` keeps insertion order). -/
def bumpCount : List (String × Nat) → String → List (String × Nat)
  | [], t => [(t, 1)]
  | (k, v) :: rest, t =>
    if k = t then (k, v + 1) :: rest else (k, v) :: bumpCount rest t

/-- The memoized `Document._termFrequencies` map: one `bumpCount` per word, in
word order. -/
def termFrequencies (words : List String) : List (String × Nat) :=
  words.foldl bumpCount []

/-- `Document.getTermFrequency`: the stored count, or 0 when the term is
absent. -/
def getTermFrequency (words : List String) (t : String) : Nat :=
  ((termFrequencies words).lookup t).getD 0

/-- `Document.getLength`: the total number of words, duplicates and stopwords
included. -/
def getLength (words : List String) : Nat :=
  words.length

/-- `Document.getUniqueTerms`: the keys of the frequency map, in first-occurrence
order. -/
def getUniqueTerms (words : List String) : List String :=
  (termFrequencies words).map Prod.fst

/-- The `Corpus` state after construction: the identifier-to-document map (a
`Document` is just its word list), the stopword list wrapped by `Stopwords`,
and the two BM25 tuning constants. -/
structure Corpus where
  documents : List (String × List String)
  stopwords : List String
  K1 : ℝ
  b : ℝ

/-- JavaScript `Map.prototype.set`: an existing key keeps its position and gets
the new value, a new key is appended. -/
def jsMapSet : List (String × α) → String → α → List (String × α)
  | [], k, v => [(k, v)]
  | (k', v') :: rest, k, v =>
    if k' = k then (k, v) :: rest else (k', v') :: jsMapSet rest k v

/-- JavaScript `new Map(iterable)`: insert every pair in order. -/
def jsMapOfList (l : List (String × α)) : List (String × α) :=
  l.foldl (fun m p => jsMapSet m p.1 p.2) []

/-- Document construction loop of `Corpus.fromKvps`: each text goes through
`TextDocument.from`; the first text without any letter raises a `TypeError`. -/
def buildDocuments : List (String × String) → Except JsError (List (String × List String))
  | [] => .ok []
  | (id, text) :: rest =>
    match textDocumentWords text with
    | none => .error .typeError
    | some ws =>
      match buildDocuments rest with
      | .error e => .error e
      | .ok docs => .ok ((id, ws) :: docs)

/-- `Corpus.fromKvps` on string contents followed by the `Corpus` constructor:
build a `TextDocument` per pair, then collect them with `new Map(...)`. -/
def corpusFromKvps (kvps : List (String × String)) (stopwords : List String)
    (K1 b : ℝ) : Except JsError Corpus :=
  (buildDocuments kvps).map (fun docs =>
    { documents := jsMapOfList docs, stopwords := stopwords, K1 := K1, b := b })

/-- `Corpus.from`: parallel `names`/`texts` arrays must have equal length,
then the zipped pairs go through `fromKvps`. -/
def corpusFrom (names texts : List String) (stopwords : List String)
    (K1 b : ℝ) : Except JsError Corpus :=
  if names.length ≠ texts.length then .error .invalidInput
  else corpusFromKvps (names.zip texts) stopwords K1 b

/-- `Corpus.getDocumentIdentifiers`. -/
def getDocumentIdentifiers (c : Corpus) : List String :=
  c.documents.map Prod.fst

/-- The stopword filter applied to one document's unique terms inside
`Corpus._calculateCollectionFrequencies`. -/
def filteredUniqueTerms (c : Corpus) (words : List String) : List String :=
  (getUniqueTerms words).filter (fun t => !(c.stopwords.contains t))

/-- `Corpus._calculateCollectionFrequencies`: for every document, every
non-stopword unique term gets its document count bumped. -/
def collectionFrequencies (c : Corpus) : List (String × Nat) :=
  c.documents.foldl (fun m p => (filteredUniqueTerms c p.2).foldl bumpCount m) []

/-- `Corpus.getTerms`: the corpus-wide non-stopword vocabulary, in insertion
order. -/
def getTerms (c : Corpus) : List String :=
  (collectionFrequencies c).map Prod.fst

/-- `Corpus.getCollectionFrequency`: the stored document count, or 0 when the
term has no entry. -/
def getCollectionFrequency (c : Corpus) (t : String) : Nat :=
  ((collectionFrequencies c).lookup t).getD 0

/-- `Corpus._calculateCollectionFrequencyWeights`:
`Math.log(N + 1) - Math.log(n)` for every vocabulary entry. -/
noncomputable def collectionFrequencyWeights (c : Corpus) : List (String × ℝ) :=
  (collectionFrequencies c).map (fun p =>
    (p.1, Real.log ((c.documents.length : ℝ) + 1) - Real.log (p.2 : ℝ)))

/-- `Corpus.getCollectionFrequencyWeight`: the stored weight, or an explicit
`null` (modelled as `none`) when the term has no entry. -/
noncomputable def getCollectionFrequencyWeight (c : Corpus) (t : String) : Option ℝ :=
  (collectionFrequencyWeights c).lookup t

/-- Average document length computed once in
`Corpus._calculateDocumentVectors`: total length divided by document count. -/
noncomputable def avgDocLength (c : Corpus) : ℝ :=
  ((c.documents.map (fun p => ((getLength p.2 : ℝ)))).sum) / (c.documents.length : ℝ)

/-- Per-document loop body of `Corpus._calculateDocumentVectors`: for every
vocabulary term, the BM25 combined weight
`idf * tf * (K1+1) / (K1*(1 - b + b*ndl) + tf)` when `tf` is non-zero (truthy),
and exactly `0.0` otherwise. -/
noncomputable def documentVector (c : Corpus) (words : List String) : List (String × ℝ) :=
  let ndl : ℝ := (getLength words : ℝ) / avgDocLength c
  (collectionFrequencyWeights c).map (fun p =>
    let tf : Nat := getTermFrequency words p.1
    (p.1,
      if tf ≠ 0 then
        p.2 * (tf : ℝ) * (c.K1 + 1) / (c.K1 * (1 - c.b + c.b * ndl) + (tf : ℝ))
      else 0))

/-- `Corpus.getDocumentVector`: the vector of the document with this
identifier, or `undefined` (modelled as `none`) for an unknown identifier. -/
noncomputable def getDocumentVector (c : Corpus) (id : String) : Option (List (String × ℝ)) :=
  (c.documents.lookup id).map (documentVector c)

/-- Insertion of one element into a list already sorted by the boolean
comparison `le`: the element goes in front of the first entry it compares
`le` with. -/
def insertSorted (le : α → α → Bool) (x : α) : List α → List α
  | [] => [x]
  | y :: ys => if le x y then x :: y :: ys else y :: insertSorted le x ys

/-- A stable sort by the boolean comparison `le`, modelling the stable
JavaScript `Array.prototype.sort`. -/
def sortBy (le : α → α → Bool) : List α → List α
  | [] => []
  | x :: xs => insertSorted le x (sortBy le xs)

/-- The comparator `(a, b) => b[1] - a[1]` used by `getCommonTerms`,
`getTopTermsForDocument` and `getResultsForQuery`: sort descending by the
second (score) component. -/
noncomputable def sortScores (l : List (String × ℝ)) : List (String × ℝ) :=
  sortBy (fun a b => decide (b.2 ≤ a.2)) l

/-- `Corpus.getTopTermsForDocument`: an unknown identifier yields an empty
array; otherwise the positive-weight entries of the vector, sorted descending
and truncated to `maxTerms`. -/
noncomputable def getTopTermsForDocument (c : Corpus) (id : String) (maxTerms : Nat) :
    List (String × ℝ) :=
  match getDocumentVector c id with
  | none => []
  | some v => (sortScores (v.filter (fun p => decide (0 < p.2)))).take maxTerms

/-- `Corpus.getCommonTerms`: pairs every entry of the first vector with the
product of the two weights, keeps the positive products, sorts descending and
truncates.  When `identifier1` is unknown, `vector1.entries()` is a method call
on `undefined` and raises a `TypeError`; when only `identifier2` is unknown,
`vector2.get(term)` raises a `TypeError` unless the first vector is empty. -/
noncomputable def getCommonTerms (c : Corpus) (id1 id2 : String) (maxTerms : Nat) :
    Except JsError (List (String × ℝ)) :=
  match getDocumentVector c id1, getDocumentVector c id2 with
  | some v1, some v2 =>
    .ok ((sortScores ((v1.map (fun p => (p.1, p.2 * ((v2.lookup p.1).getD 0)))).filter
      (fun p => decide (0 < p.2)))).take maxTerms)
  | some v1, none => if v1.isEmpty then .ok [] else .error .typeError
  | none, _ => .error .typeError

/-- A value passed as a query to `getResultsForQuery`: either a string or any
non-string JavaScript value. -/
inductive Query where
  | str (s : String)
  | nonString

/-- `Corpus._queryToUniqueTerms`: a non-empty string is tokenized through
`new TextDocument(query)` (which raises a `TypeError`, modelled as `none`, when
the string has no letter); anything else yields no terms. -/
def queryToUniqueTerms (q : Query) : Option (List String) :=
  match q with
  | .str s => if s.length > 0 then (textDocumentWords s).map getUniqueTerms else some []
  | .nonString => some []

/-- One step of the score accumulation loop of `Corpus.getResultsForQuery`:
the query term's weight is added when it is present and truthy (non-zero). -/
noncomputable def queryStep (v : List (String × ℝ)) (s : ℝ) (t : String) : ℝ :=
  match v.lookup t with
  | some w => if w ≠ 0 then s + w else s
  | none => s

/-- Score accumulation loop of `Corpus.getResultsForQuery`. -/
noncomputable def scoreOf (v : List (String × ℝ)) (terms : List String) : ℝ :=
  terms.foldl (queryStep v) 0

/-- `Corpus.getResultsForQuery`: tokenize the query into unique terms, score
every document, keep the strictly positive scores and sort them descending. -/
noncomputable def getResultsForQuery (c : Corpus) (q : Query) :
    Except JsError (List (String × ℝ)) :=
  match queryToUniqueTerms q with
  | none => .error .typeError
  | some terms =>
    if terms.length = 0 then .ok []
    else
      .ok (sortScores (((getDocumentIdentifiers c).map (fun d =>
        (d, scoreOf ((getDocumentVector c d).getD []) terms))).filter
          (fun p => decide (0 < p.2))))

/-- Modelled from the spec: the source file `Similarity.js` is absent from
`src/`, so the union of terms to which either vector assigns a non-zero weight
(§4.3) is modelled here from the spec's words.  `nonzeroKeys` lists one
vector's non-zero-weight terms. -/
noncomputable def nonzeroKeys (v : List (String × ℝ)) : List String :=
  (v.filter (fun p => decide (p.2 ≠ 0))).map Prod.fst

/-- Modelled from the spec: the term set over which `Similarity` compares two
vectors — the union of the terms either vector assigns a non-zero weight. -/
noncomputable def simKeys (v1 v2 : List (String × ℝ)) : List String :=
  (nonzeroKeys v1 ++ nonzeroKeys v2).dedup

/-- Weight a vector assigns to a term, zero when absent. -/
noncomputable def weightOf (v : List (String × ℝ)) (t : String) : ℝ :=
  ((v.lookup t).getD 0)

/-- Modelled from the spec: the dot product `dot(A,B)` of §4.3, restricted to
`simKeys`. -/
noncomputable def dotProduct (v1 v2 : List (String × ℝ)) : ℝ :=
  ((simKeys v1 v2).map (fun t => weightOf v1 t * weightOf v2 t)).sum

/-- Modelled from the spec: the Euclidean norm of a vector restricted to the
key set `ks`. -/
noncomputable def normOver (ks : List String) (v : List (String × ℝ)) : ℝ :=
  Real.sqrt ((ks.map (fun t => weightOf v t ^ 2)).sum)

/-- Modelled from the spec: `Similarity.cosineSimilarity` (source file
`Similarity.js` is absent from `src/`): `dot(A,B) / (‖A‖ · ‖B‖)` over the union
of non-zero-weight terms, defined as 0 when either norm is 0. -/
noncomputable def cosineSimilarity (v1 v2 : List (String × ℝ)) : ℝ :=
  if normOver (simKeys v1 v2) v1 = 0 ∨ normOver (simKeys v1 v2) v2 = 0 then 0
  else dotProduct v1 v2 / (normOver (simKeys v1 v2) v1 * normOver (simKeys v1 v2) v2)

/-- Modelled from the spec: `Similarity.getDistanceMatrix` (source file
`Similarity.js` is absent from `src/`): the identifiers fix the row and column
ordering and `matrix[i][j] = 1 - cosineSimilarity(vector(ids[i]), vector(ids[j]))`. -/
noncomputable def getDistanceMatrix (c : Corpus) : List String × List (List ℝ) :=
  (getDocumentIdentifiers c, (getDocumentIdentifiers c).map (fun i =>
    (getDocumentIdentifiers c).map (fun j =>
      1 - cosineSimilarity ((getDocumentVector c i).getD [])
        ((getDocumentVector c j).getD []))))

/-! ### Association-list lemmas -/

theorem lookup_cons_self {α : Type} {l : List (String × α)} {k : String} {v : α} :
    ((k, v) :: l).lookup k = some v := by
  simp [List.lookup]

theorem lookup_cons_ne {α : Type} {l : List (String × α)} {s k : String} {v : α}
    (h : s ≠ k) : ((k, v) :: l).lookup s = l.lookup s := by
  simp [List.lookup, beq_eq_false_iff_ne.mpr h]

theorem lookup_bumpCount_self (m : List (String × Nat)) (t : String) :
    (bumpCount m t).lookup t = some (((m.lookup t).getD 0) + 1) := by
  induction m with
  | nil => simp [bumpCount, lookup_cons_self, List.lookup]
  | cons p rest ih =>
    obtain ⟨k, v⟩ := p
    by_cases h : k = t
    · subst h
      simp [bumpCount, lookup_cons_self]
    · simp only [bumpCount, if_neg h, lookup_cons_ne (Ne.symm h), ih]

theorem lookup_bumpCount_ne (m : List (String × Nat)) {s t : String} (h : s ≠ t) :
    (bumpCount m t).lookup s = m.lookup s := by
  induction m with
  | nil =>
    show ([(t, 1)].lookup s) = ([] : List (String × Nat)).lookup s
    rw [lookup_cons_ne h]
  | cons p rest ih =>
    obtain ⟨k, v⟩ := p
    by_cases hk : k = t
    · subst hk
      simp [bumpCount, lookup_cons_ne h]
    · by_cases hs : s = k
      · subst hs
        simp [bumpCount, if_neg hk, lookup_cons_self]
      · simp [bumpCount, if_neg hk, lookup_cons_ne hs, ih]

theorem keys_bumpCount (m : List (String × Nat)) (t : String) :
    (bumpCount m t).map Prod.fst =
      if t ∈ m.map Prod.fst then m.map Prod.fst else m.map Prod.fst ++ [t] := by
  induction m with
  | nil => simp [bumpCount]
  | cons p rest ih =>
    obtain ⟨k, v⟩ := p
    by_cases h : k = t
    · subst h
      simp [bumpCount]
    · have ht : t ≠ k := Ne.symm h
      by_cases hm : t ∈ rest.map Prod.fst
      · simp [bumpCount, h, ih, hm, ht]
      · simp [bumpCount, h, ih, hm, ht]

theorem nodupKeys_bumpCount {m : List (String × Nat)} (t : String)
    (h : (m.map Prod.fst).Nodup) : ((bumpCount m t).map Prod.fst).Nodup := by
  rw [keys_bumpCount]
  by_cases hm : t ∈ m.map Prod.fst
  · simpa [hm] using h
  · simp only [hm, if_false]
    refine List.Nodup.append h (List.nodup_singleton t) ?_
    intro a ha hat
    rw [List.mem_singleton] at hat
    exact hm (hat ▸ ha)

theorem lookup_foldl_bumpCount_getD (ws : List String) (t : String) :
    ∀ m, (((ws.foldl bumpCount m).lookup t).getD 0) = ((m.lookup t).getD 0) + ws.count t := by
  induction ws with
  | nil => simp
  | cons w ws ih =>
    intro m
    by_cases h : w = t
    · subst h
      rw [List.foldl_cons, ih, lookup_bumpCount_self]
      simp [List.count_cons]
      omega
    · rw [List.foldl_cons, ih, lookup_bumpCount_ne m (Ne.symm h)]
      simp [List.count_cons, h]

theorem lookup_foldl_bumpCount_of_not_mem (ws : List String) {t : String} (h : t ∉ ws) :
    ∀ m, (ws.foldl bumpCount m).lookup t = m.lookup t := by
  induction ws with
  | nil => simp
  | cons w ws ih =>
    intro m
    have hw : t ≠ w := fun hc => h (hc ▸ List.mem_cons_self w ws)
    rw [List.foldl_cons, ih (fun hc => h (List.mem_cons_of_mem w hc)),
      lookup_bumpCount_ne m hw]

theorem mem_keys_foldl_bumpCount (ws : List String) (t : String) :
    ∀ m, (t ∈ (ws.foldl bumpCount m).map Prod.fst ↔ t ∈ m.map Prod.fst ∨ t ∈ ws) := by
  induction ws with
  | nil => simp
  | cons w ws ih =>
    intro m
    rw [List.foldl_cons, ih, keys_bumpCount]
    by_cases hm : w ∈ m.map Prod.fst
    · simp only [hm, if_true, List.mem_cons]
      constructor
      · rintro (h | h)
        · exact Or.inl h
        · exact Or.inr (Or.inr h)
      · rintro (h | h | h)
        · exact Or.inl h
        · exact Or.inl (h ▸ hm)
        · exact Or.inr h
    · simp only [hm, if_false, List.mem_append, List.mem_singleton, List.mem_cons]
      tauto

theorem nodupKeys_foldl_bumpCount (ws : List String) :
    ∀ m, (m.map Prod.fst).Nodup → ((ws.foldl bumpCount m).map Prod.fst).Nodup := by
  induction ws with
  | nil => exact fun m h => h
  | cons w ws ih =>
    intro m hm
    exact ih (bumpCount m w) (nodupKeys_bumpCount w hm)

theorem lookup_eq_of_mem_of_nodupKeys {α : Type} {l : List (String × α)} {k : String} {v : α}
    (hnd : (l.map Prod.fst).Nodup) (h : (k, v) ∈ l) : l.lookup k = some v := by
  induction l with
  | nil => cases h
  | cons p rest ih =>
    obtain ⟨k', v'⟩ := p
    have hnd' : k' ∉ rest.map Prod.fst ∧ (rest.map Prod.fst).Nodup := by
      rw [List.map_cons] at hnd
      exact List.nodup_cons.mp hnd
    rcases List.mem_cons.mp h with heq | hmem
    · cases heq
      exact lookup_cons_self
    · have hk : k' ≠ k := by
        intro hc
        subst hc
        exact hnd'.1 (List.mem_map.mpr ⟨(k', v), hmem, rfl⟩)
      rw [lookup_cons_ne (Ne.symm hk)]
      exact ih hnd'.2 hmem

theorem mem_of_lookup_eq_some {α : Type} {l : List (String × α)} {k : String} {v : α}
    (h : l.lookup k = some v) : (k, v) ∈ l := by
  induction l with
  | nil => simp [List.lookup] at h
  | cons p rest ih =>
    obtain ⟨k', v'⟩ := p
    by_cases hk : k' = k
    · subst hk
      rw [lookup_cons_self] at h
      obtain rfl := Option.some.inj h
      exact List.mem_cons_self _ _
    · rw [lookup_cons_ne (Ne.symm hk)] at h
      exact List.mem_cons_of_mem _ (ih h)

theorem lookup_map_snd {α β : Type} (l : List (String × α)) (f : String → α → β) (t : String) :
    (l.map (fun p => (p.1, f p.1 p.2))).lookup t = (l.lookup t).map (f t) := by
  induction l with
  | nil => simp
  | cons p rest ih =>
    obtain ⟨k, v⟩ := p
    by_cases h : k = t
    · subst h
      rw [List.map_cons]
      exact lookup_cons_self.trans (by rw [lookup_cons_self]; rfl)
    · rw [List.map_cons]
      show ((k, f k v) :: rest.map _).lookup t = _
      rw [lookup_cons_ne (Ne.symm h), lookup_cons_ne (Ne.symm h)]
      exact ih

/-! ### Document statistics -/

theorem getTermFrequency_eq_count (ws : List String) (t : String) :
    getTermFrequency ws t = ws.count t := by
  have h := lookup_foldl_bumpCount_getD ws t []
  simpa [getTermFrequency, termFrequencies] using h

theorem mem_getUniqueTerms (ws : List String) (t : String) :
    t ∈ getUniqueTerms ws ↔ t ∈ ws := by
  have h := mem_keys_foldl_bumpCount ws t []
  simpa [getUniqueTerms, termFrequencies] using h

theorem getUniqueTerms_nodup (ws : List String) : (getUniqueTerms ws).Nodup :=
  nodupKeys_foldl_bumpCount ws [] (by simp)

/-! ### Collection statistics -/

theorem filteredUniqueTerms_nodup (c : Corpus) (ws : List String) :
    (filteredUniqueTerms c ws).Nodup :=
  (getUniqueTerms_nodup ws).filter _

theorem mem_filteredUniqueTerms (c : Corpus) (ws : List String) (t : String) :
    t ∈ filteredUniqueTerms c ws ↔ t ∈ ws ∧ c.stopwords.contains t = false := by
  simp [filteredUniqueTerms, List.mem_filter, mem_getUniqueTerms, Bool.not_eq_true']

theorem cf_foldl_getD (c : Corpus) (t : String) :
    ∀ (docs : List (String × List String)) (m : List (String × Nat)),
      (((docs.foldl (fun m p => (filteredUniqueTerms c p.2).foldl bumpCount m) m).lookup t).getD 0)
        = ((m.lookup t).getD 0)
          + docs.countP (fun p => (filteredUniqueTerms c p.2).contains t) := by
  intro docs
  induction docs with
  | nil => simp
  | cons d docs ih =>
    intro m
    rw [List.foldl_cons, ih, lookup_foldl_bumpCount_getD]
    by_cases h : t ∈ filteredUniqueTerms c d.2
    · rw [List.count_eq_one_of_mem (filteredUniqueTerms_nodup c d.2) h]
      have hc : (filteredUniqueTerms c d.2).contains t = true := List.elem_iff.mpr h
      rw [List.countP_cons, hc, if_pos rfl]
      omega
    · rw [List.count_eq_zero.mpr h]
      have hc : (filteredUniqueTerms c d.2).contains t = false := by
        cases hb : (filteredUniqueTerms c d.2).contains t
        · rfl
        · exact absurd (List.elem_iff.mp hb) h
      rw [List.countP_cons, hc, if_neg Bool.false_ne_true]
      omega

theorem getCollectionFrequency_eq_countP (c : Corpus) (t : String) :
    getCollectionFrequency c t
      = c.documents.countP (fun p => (filteredUniqueTerms c p.2).contains t) := by
  have h := cf_foldl_getD c t c.documents []
  simpa [getCollectionFrequency, collectionFrequencies] using h

theorem cf_lookup_none_aux (c : Corpus) (t : String) :
    ∀ (docs : List (String × List String)) (m : List (String × Nat)),
      (∀ p ∈ docs, t ∉ filteredUniqueTerms c p.2) → m.lookup t = none →
      (docs.foldl (fun m p => (filteredUniqueTerms c p.2).foldl bumpCount m) m).lookup t
        = none := by
  intro docs
  induction docs with
  | nil =>
    intro m _ hm
    simpa using hm
  | cons d docs ih =>
    intro m hall hm
    rw [List.foldl_cons]
    refine ih _ (fun p hp => hall p (List.mem_cons_of_mem d hp)) ?_
    rw [lookup_foldl_bumpCount_of_not_mem _ (hall d (List.mem_cons_self d docs))]
    exact hm

theorem cf_nodup_aux (c : Corpus) :
    ∀ (docs : List (String × List String)) (m : List (String × Nat)),
      (m.map Prod.fst).Nodup →
      ((docs.foldl (fun m p => (filteredUniqueTerms c p.2).foldl bumpCount m) m).map
        Prod.fst).Nodup := by
  intro docs
  induction docs with
  | nil => exact fun m h => h
  | cons d docs ih => exact fun m h => ih _ (nodupKeys_foldl_bumpCount _ _ h)

theorem cf_nodupKeys (c : Corpus) : ((collectionFrequencies c).map Prod.fst).Nodup :=
  cf_nodup_aux c c.documents [] (by simp)

theorem cf_entry_bounds {c : Corpus} {t : String} {n : Nat}
    (h : (t, n) ∈ collectionFrequencies c) : 1 ≤ n ∧ n ≤ c.documents.length := by
  have hl : (collectionFrequencies c).lookup t = some n :=
    lookup_eq_of_mem_of_nodupKeys (cf_nodupKeys c) h
  have hcf : getCollectionFrequency c t = n := by
    simp [getCollectionFrequency, hl]
  constructor
  · rcases Nat.eq_zero_or_pos n with h0 | h1
    · exfalso
      have hcount : c.documents.countP
          (fun p => (filteredUniqueTerms c p.2).contains t) = 0 := by
        rw [← getCollectionFrequency_eq_countP, hcf, h0]
      have hall : ∀ p ∈ c.documents, t ∉ filteredUniqueTerms c p.2 := by
        intro p hp hmem
        have hz := List.countP_eq_zero.mp hcount p hp
        exact hz (List.elem_iff.mpr hmem)
      have hnone : (collectionFrequencies c).lookup t = none :=
        cf_lookup_none_aux c t c.documents [] hall (by simp)
      rw [hnone] at hl
      cases hl
    · exact h1
  · rw [← hcf, getCollectionFrequency_eq_countP]
    exact List.countP_le_length _

theorem getCollectionFrequencyWeight_eq (c : Corpus) (t : String) :
    getCollectionFrequencyWeight c t =
      ((collectionFrequencies c).lookup t).map
        (fun n : ℕ => Real.log ((c.documents.length : ℝ) + 1) - Real.log (n : ℝ)) := by
  unfold getCollectionFrequencyWeight collectionFrequencyWeights
  exact lookup_map_snd _ (fun _ (n : ℕ) => Real.log ((c.documents.length : ℝ) + 1)
    - Real.log (n : ℝ)) t

theorem documentVector_lookup (c : Corpus) (ws : List String) (t : String) :
    (documentVector c ws).lookup t =
      ((collectionFrequencyWeights c).lookup t).map (fun idf =>
        if getTermFrequency ws t ≠ 0 then
          idf * (getTermFrequency ws t : ℝ) * (c.K1 + 1)
            / (c.K1 * (1 - c.b + c.b * ((getLength ws : ℝ) / avgDocLength c))
              + (getTermFrequency ws t : ℝ))
        else 0) := by
  unfold documentVector
  exact lookup_map_snd (collectionFrequencyWeights c)
    (fun s idf =>
      if getTermFrequency ws s ≠ 0 then
        idf * (getTermFrequency ws s : ℝ) * (c.K1 + 1)
          / (c.K1 * (1 - c.b + c.b * ((getLength ws : ℝ) / avgDocLength c))
            + (getTermFrequency ws s : ℝ))
      else 0) t

/-- A small concrete corpus used to exhibit satisfiable hypotheses: two
documents sharing the term "test", the term "bit" occurring twice in the
first document only, and "and" configured as a stopword. -/
noncomputable def exampleCorpus : Corpus :=
  { documents := [("d1", ["test", "bit", "bit"]), ("d2", ["test", "and"])],
    stopwords := ["and"], K1 := 2, b := 3 / 4 }

/-- C1: for a document `d` of the corpus and a term `t` of the corpus-wide
non-stopword vocabulary, the document's vector has an entry for `t` (the
vector is dense over the vocabulary) whose value is
`idf(t) * tf * (K1+1) / (K1*(1 - b + b*ndl) + tf)` when `tf > 0` and exactly
`0.0` when `tf = 0`, with `tf = termFrequency(d, t)` and
`ndl = length(d) / avgLen`. -/
theorem getDocumentVector_bm25 (c : Corpus) (id t : String) (ws : List String)
    (hdoc : c.documents.lookup id = some ws) (ht : t ∈ getTerms c) :
    ∃ idf v, getCollectionFrequencyWeight c t = some idf ∧
      getDocumentVector c id = some v ∧
      v.lookup t = some (
        if getTermFrequency ws t ≠ 0 then
          idf * (getTermFrequency ws t : ℝ) * (c.K1 + 1)
            / (c.K1 * (1 - c.b + c.b * ((getLength ws : ℝ) / avgDocLength c))
              + (getTermFrequency ws t : ℝ))
        else 0) := by
  have hcf : ∃ n, (collectionFrequencies c).lookup t = some n := by
    rw [getTerms] at ht
    obtain ⟨⟨tt, n⟩, hmem, htt⟩ := List.mem_map.mp ht
    cases htt
    exact ⟨n, lookup_eq_of_mem_of_nodupKeys (cf_nodupKeys c) hmem⟩
  obtain ⟨n, hn⟩ := hcf
  have hw : getCollectionFrequencyWeight c t
      = some (Real.log ((c.documents.length : ℝ) + 1) - Real.log (n : ℝ)) := by
    rw [getCollectionFrequencyWeight_eq, hn]
    rfl
  refine ⟨_, documentVector c ws, hw, ?_, ?_⟩
  · rw [getDocumentVector, hdoc]
    rfl
  · rw [documentVector_lookup]
    rw [show (collectionFrequencyWeights c).lookup t = getCollectionFrequencyWeight c t
      from rfl, hw]
    rfl

/-- Satisfiable-hypothesis check for C1 at `exampleCorpus`, document d1 and
vocabulary term "bit". -/
theorem getDocumentVector_bm25_witness :
    exampleCorpus.documents.lookup "d1" = some ["test", "bit", "bit"] ∧
    "bit" ∈ getTerms exampleCorpus ∧
    (∃ idf v, getCollectionFrequencyWeight exampleCorpus "bit" = some idf ∧
      getDocumentVector exampleCorpus "d1" = some v ∧
      v.lookup "bit" = some (
        if getTermFrequency ["test", "bit", "bit"] "bit" ≠ 0 then
          idf * (getTermFrequency ["test", "bit", "bit"] "bit" : ℝ) * (exampleCorpus.K1 + 1)
            / (exampleCorpus.K1 * (1 - exampleCorpus.b + exampleCorpus.b *
                ((getLength ["test", "bit", "bit"] : ℝ) / avgDocLength exampleCorpus))
              + (getTermFrequency ["test", "bit", "bit"] "bit" : ℝ))
        else 0)) :=
  ⟨by decide, by decide,
    getDocumentVector_bm25 exampleCorpus "d1" "bit" ["test", "bit", "bit"]
      (by decide) (by decide)⟩

/-- C2: a term of the non-stopword vocabulary (collection frequency at least 1)
has collection frequency weight `ln(N + 1) - ln(cf)`, and this weight is
strictly positive even when the term occurs in every document. -/
theorem getCollectionFrequencyWeight_formula (c : Corpus) (t : String)
    (h : 1 ≤ getCollectionFrequency c t) :
    getCollectionFrequencyWeight c t =
      some (Real.log ((c.documents.length : ℝ) + 1)
        - Real.log ((getCollectionFrequency c t : ℝ))) ∧
    0 < Real.log ((c.documents.length : ℝ) + 1)
        - Real.log ((getCollectionFrequency c t : ℝ)) := by
  have hsome : ∃ n, (collectionFrequencies c).lookup t = some n := by
    cases hl : (collectionFrequencies c).lookup t with
    | none =>
      rw [getCollectionFrequency, hl] at h
      simp at h
    | some n => exact ⟨n, rfl⟩
  obtain ⟨n, hn⟩ := hsome
  have hval : getCollectionFrequency c t = n := by
    rw [getCollectionFrequency, hn]
    rfl
  have hbounds := cf_entry_bounds (mem_of_lookup_eq_some hn)
  constructor
  · rw [getCollectionFrequencyWeight_eq, hn, hval]
    rfl
  · rw [hval]
    have h1 : (0 : ℝ) < (n : ℝ) := by
      exact_mod_cast Nat.lt_of_lt_of_le Nat.zero_lt_one hbounds.1
    have hlt : (n : ℝ) < (c.documents.length : ℝ) + 1 := by
      have h2 : n < c.documents.length + 1 := Nat.lt_succ_of_le hbounds.2
      exact_mod_cast h2
    have := Real.log_lt_log h1 hlt
    linarith

/-- Satisfiable-hypothesis check for C2 at `exampleCorpus` and the term
"test", which occurs in every document. -/
theorem getCollectionFrequencyWeight_formula_witness :
    1 ≤ getCollectionFrequency exampleCorpus "test" ∧
    (getCollectionFrequencyWeight exampleCorpus "test" =
      some (Real.log ((exampleCorpus.documents.length : ℝ) + 1)
        - Real.log ((getCollectionFrequency exampleCorpus "test" : ℝ))) ∧
    0 < Real.log ((exampleCorpus.documents.length : ℝ) + 1)
        - Real.log ((getCollectionFrequency exampleCorpus "test" : ℝ))) :=
  ⟨by decide, getCollectionFrequencyWeight_formula exampleCorpus "test" (by decide)⟩

/-- C6: a stopword has collection frequency 0 and an explicitly absent (`null`)
collection frequency weight no matter how many documents contain it, while
`getTermFrequency` still reports its true per-document occurrence count. -/
theorem stopword_collection_stats (c : Corpus) (t : String)
    (h : c.stopwords.contains t = true) :
    getCollectionFrequency c t = 0 ∧ getCollectionFrequencyWeight c t = none ∧
    ∀ ws : List String, getTermFrequency ws t = ws.count t := by
  have hall : ∀ p ∈ c.documents, t ∉ filteredUniqueTerms c p.2 := by
    intro p hp hmem
    rw [mem_filteredUniqueTerms] at hmem
    rw [hmem.2] at h
    exact Bool.false_ne_true h
  have hnone : (collectionFrequencies c).lookup t = none :=
    cf_lookup_none_aux c t c.documents [] hall (by simp)
  refine ⟨?_, ?_, fun ws => getTermFrequency_eq_count ws t⟩
  · rw [getCollectionFrequency, hnone]
    rfl
  · rw [getCollectionFrequencyWeight_eq, hnone]
    rfl

/-- Satisfiable-hypothesis check for C6 at `exampleCorpus` and its stopword
"and", which does occur in document d2. -/
theorem stopword_collection_stats_witness :
    exampleCorpus.stopwords.contains "and" = true ∧
    (getCollectionFrequency exampleCorpus "and" = 0 ∧
     getCollectionFrequencyWeight exampleCorpus "and" = none ∧
     ∀ ws : List String, getTermFrequency ws "and" = ws.count "and") :=
  ⟨by decide, stopword_collection_stats exampleCorpus "and" (by decide)⟩

/-- C9: for every document, the term frequencies of its unique terms sum to
its length (total token count, duplicates and stopwords included). -/
theorem sum_termFrequency_eq_getLength (ws : List String) :
    ((getUniqueTerms ws).map (getTermFrequency ws)).sum = getLength ws := by
  have hnd := getUniqueTerms_nodup ws
  have hfin : (getUniqueTerms ws).toFinset = ws.toFinset := by
    ext t
    simp [List.mem_toFinset, mem_getUniqueTerms]
  have hfun : getTermFrequency ws = fun t => ws.count t :=
    funext (getTermFrequency_eq_count ws)
  calc ((getUniqueTerms ws).map (getTermFrequency ws)).sum
      = ((getUniqueTerms ws).map (fun t => ws.count t)).sum := by rw [hfun]
    _ = ∑ t in (getUniqueTerms ws).toFinset, ws.count t :=
        (List.sum_toFinset _ hnd).symm
    _ = ∑ t in ws.toFinset, ws.count t := by rw [hfin]
    _ = ws.length := List.sum_toFinset_count_eq_length ws
    _ = getLength ws := rfl

/-! ### Corpus construction -/

theorem letterRuns_nil_of_no_letters (l : List Char)
    (h : ∀ ch ∈ l, isLetterChar ch = false) : letterRuns l [] = [] := by
  induction l with
  | nil => rfl
  | cons ch rest ih =>
    have hch : isLetterChar ch = false := h ch (List.mem_cons_self ch rest)
    rw [letterRuns, hch]
    simp only [Bool.false_eq_true, if_false, List.isEmpty_nil, if_pos rfl]
    exact ih (fun x hx => h x (List.mem_cons_of_mem ch hx))

theorem textDocumentWords_eq_none (s : String)
    (h : ∀ ch ∈ s.data, isLetterChar ch = false) : textDocumentWords s = none := by
  rw [textDocumentWords, letterRuns_nil_of_no_letters s.data h]

theorem buildDocuments_error_of_mem {kvps : List (String × String)} {id s : String}
    (hmem : (id, s) ∈ kvps) (hs : textDocumentWords s = none) :
    buildDocuments kvps = .error .typeError := by
  induction kvps with
  | nil => cases hmem
  | cons p rest ih =>
    obtain ⟨id', s'⟩ := p
    rcases List.mem_cons.mp hmem with heq | hmem'
    · cases heq
      rw [buildDocuments, hs]
    · rw [buildDocuments]
      cases hw : textDocumentWords s' with
      | none => rfl
      | some ws => rw [ih hmem']

theorem buildDocuments_ok_of_all {kvps : List (String × String)}
    (h : ∀ p ∈ kvps, (textDocumentWords p.2).isSome = true) :
    buildDocuments kvps = .ok (kvps.map (fun p => (p.1, (textDocumentWords p.2).getD []))) := by
  induction kvps with
  | nil => rfl
  | cons p rest ih =>
    obtain ⟨id, s⟩ := p
    have hhead := h (id, s) (List.mem_cons_self _ _)
    cases hw : textDocumentWords s with
    | none => rw [hw] at hhead; cases hhead
    | some ws =>
      rw [buildDocuments, hw, ih (fun q hq => h q (List.mem_cons_of_mem _ hq))]
      simp [hw]

theorem jsMapSet_append {α : Type} {m : List (String × α)} {k : String} (v : α)
    (h : k ∉ m.map Prod.fst) : jsMapSet m k v = m ++ [(k, v)] := by
  induction m with
  | nil => rfl
  | cons p rest ih =>
    obtain ⟨k', v'⟩ := p
    have hk : k' ≠ k := by
      intro hc
      exact h (by simp [hc])
    rw [jsMapSet, if_neg hk, ih (fun hc => h (by simp [hc]))]
    rfl

theorem jsMapOfList_aux {α : Type} :
    ∀ (l acc : List (String × α)), (l.map Prod.fst).Nodup →
      (∀ k ∈ l.map Prod.fst, k ∉ acc.map Prod.fst) →
      l.foldl (fun m p => jsMapSet m p.1 p.2) acc = acc ++ l := by
  intro l
  induction l with
  | nil => intro acc _ _; simp
  | cons p rest ih =>
    intro acc hnd hdis
    obtain ⟨k, v⟩ := p
    rw [List.foldl_cons]
    have hk : k ∉ acc.map Prod.fst := hdis k (by simp)
    rw [jsMapSet_append v hk]
    rw [ih (acc ++ [(k, v)]) (by simpa using (List.nodup_cons.mp (by simpa using hnd)).2) ?_]
    · simp
    · intro k' hk' hc
      simp only [List.map_append, List.mem_append] at hc
      rcases hc with hc | hc
      · exact hdis k' (by simp [hk']) hc
      · simp at hc
        subst hc
        exact (List.nodup_cons.mp (by simpa using hnd)).1 hk'

theorem jsMapOfList_eq_self {α : Type} (l : List (String × α))
    (h : (l.map Prod.fst).Nodup) : jsMapOfList l = l := by
  have := jsMapOfList_aux l [] h (by simp)
  simpa [jsMapOfList] using this

theorem zip_map_eq_zipWith {β : Type} (f : String → β) :
    ∀ (names texts : List String),
      (names.zip texts).map (fun p => (p.1, f p.2))
        = List.zipWith (fun n t => (n, f t)) names texts
  | [], _ => by simp
  | _ :: _, [] => by simp
  | n :: ns, t :: ts => by
    simp only [List.zip_cons_cons, List.map_cons, List.zipWith_cons_cons]
    rw [zip_map_eq_zipWith f ns ts]

/-- C3 (amended): unequal-length parallel arrays raise `InvalidInput`; with
equal lengths, distinct identifiers and texts that each contain at least one
letter, construction succeeds and the corpus holds exactly the n
(identifier, tokenized text) pairs in positional correspondence. -/
theorem corpusFrom_spec (names texts sw : List String) (K1 b : ℝ) :
    (names.length ≠ texts.length →
      corpusFrom names texts sw K1 b = .error .invalidInput) ∧
    (names.length = texts.length → names.Nodup →
      (∀ t ∈ texts, (textDocumentWords t).isSome = true) →
      corpusFrom names texts sw K1 b = .ok
        { documents := List.zipWith (fun n t => (n, (textDocumentWords t).getD []))
            names texts,
          stopwords := sw, K1 := K1, b := b }) := by
  constructor
  · intro h
    rw [corpusFrom, if_pos h]
  · intro hlen hnd hall
    rw [corpusFrom, if_neg (by simp [hlen])]
    have hzip : ∀ p ∈ names.zip texts, (textDocumentWords p.2).isSome = true :=
      fun p hp => hall p.2 (List.of_mem_zip hp).2
    rw [corpusFromKvps, buildDocuments_ok_of_all hzip]
    have hkeys : ((names.zip texts).map
        (fun p => (p.1, (textDocumentWords p.2).getD []))).map Prod.fst = names := by
      rw [List.map_map]
      have : (Prod.fst ∘ fun p : String × String =>
          (p.1, (textDocumentWords p.2).getD [])) = Prod.fst := rfl
      rw [this]
      exact List.map_fst_zip names texts (le_of_eq hlen)
    have hjm := jsMapOfList_eq_self
      ((names.zip texts).map (fun p => (p.1, (textDocumentWords p.2).getD [])))
      (by rw [hkeys]; exact hnd)
    simp only [Except.map, hjm]
    rw [zip_map_eq_zipWith (fun t => (textDocumentWords t).getD []) names texts]

/-- Satisfiable-hypothesis check for C3 at two well-formed texts with distinct
identifiers. -/
theorem corpusFrom_spec_witness :
    corpusFrom ["a", "b"] ["good text", "more words"] [] 2 (3 / 4) = .ok
      { documents := List.zipWith (fun n t => (n, (textDocumentWords t).getD []))
          ["a", "b"] ["good text", "more words"],
        stopwords := [], K1 := 2, b := 3 / 4 } :=
  (corpusFrom_spec ["a", "b"] ["good text", "more words"] [] 2 (3 / 4)).2
    rfl (by decide) (by decide)

/-- C3 counterexample: two parallel arrays of equal length 1 where the text
"123" contains no letter — construction raises a `TypeError` instead of
succeeding, so equal lengths alone do not guarantee a usable corpus. -/
theorem corpusFrom_equal_length_failure :
    corpusFrom ["a"] ["123"] [] 2 (3 / 4) = .error .typeError := rfl

theorem exists_mem_zip_of_mem {s : String} :
    ∀ (names texts : List String), names.length = texts.length → s ∈ texts →
      ∃ id, (id, s) ∈ names.zip texts
  | [], [], _, hs => absurd hs (List.not_mem_nil s)
  | [], _ :: _, h, _ => by simp at h
  | _ :: _, [], _, hs => absurd hs (List.not_mem_nil s)
  | n :: ns, t :: ts, h, hs => by
    rcases List.mem_cons.mp hs with heq | hmem
    · subst heq
      exact ⟨n, List.mem_cons_self _ _⟩
    · obtain ⟨id, hid⟩ := exists_mem_zip_of_mem ns ts (by simpa using h) hmem
      exact ⟨id, List.mem_cons_of_mem _ hid⟩

/-- C10: a string with no letter character makes `TextDocument`'s constructor
raise a `TypeError` (the token-extraction match yields `null`), and building a
corpus through `fromKvps` or `from` with such a text raises the same error
instead of producing an empty document. -/
theorem letterless_text_raises (s : String)
    (h : ∀ ch ∈ s.data, isLetterChar ch = false) :
    textDocumentWords s = none ∧
    (∀ (kvps : List (String × String)) (sw : List String) (K1 b : ℝ) (id : String),
      (id, s) ∈ kvps → corpusFromKvps kvps sw K1 b = .error .typeError) ∧
    (∀ (names texts sw : List String) (K1 b : ℝ),
      names.length = texts.length → s ∈ texts →
      corpusFrom names texts sw K1 b = .error .typeError) := by
  have hnone := textDocumentWords_eq_none s h
  refine ⟨hnone, ?_, ?_⟩
  · intro kvps sw K1 b id hmem
    rw [corpusFromKvps, buildDocuments_error_of_mem hmem hnone]
    rfl
  · intro names texts sw K1 b hlen hmem
    rw [corpusFrom, if_neg (by simp [hlen])]
    obtain ⟨id, hid⟩ := exists_mem_zip_of_mem names texts hlen hmem
    rw [corpusFromKvps, buildDocuments_error_of_mem hid hnone]
    rfl

/-- Satisfiable-hypothesis check for C10 at the letterless text "123". -/
theorem letterless_text_raises_witness :
    (∀ ch ∈ ("123" : String).data, isLetterChar ch = false) ∧
    textDocumentWords "123" = none :=
  ⟨by decide, (letterless_text_raises "123" (by decide)).1⟩

/-! ### Sorting -/

theorem insertSorted_perm {α : Type} (le : α → α → Bool) (x : α) :
    ∀ l : List α, (insertSorted le x l).Perm (x :: l) := by
  intro l
  induction l with
  | nil => exact List.Perm.refl _
  | cons y ys ih =>
    rw [insertSorted]
    cases h : le x y
    · simp only [Bool.false_eq_true, if_false]
      exact (List.Perm.cons y ih).trans (List.Perm.swap x y ys)
    · simp only [if_pos rfl]
      exact List.Perm.refl _

theorem sortBy_perm {α : Type} (le : α → α → Bool) :
    ∀ l : List α, (sortBy le l).Perm l := by
  intro l
  induction l with
  | nil => exact List.Perm.refl _
  | cons x xs ih =>
    rw [sortBy]
    exact (insertSorted_perm le x (sortBy le xs)).trans (List.Perm.cons x ih)

theorem sortScores_perm (l : List (String × ℝ)) : (sortScores l).Perm l :=
  sortBy_perm _ l

theorem insertSorted_sorted (x : String × ℝ) (l : List (String × ℝ))
    (hl : List.Sorted (fun a b : String × ℝ => b.2 ≤ a.2) l) :
    List.Sorted (fun a b : String × ℝ => b.2 ≤ a.2)
      (insertSorted (fun a b => decide (b.2 ≤ a.2)) x l) := by
  induction l with
  | nil => simp [insertSorted]
  | cons y ys ih =>
    rw [List.sorted_cons] at hl
    rw [insertSorted]
    by_cases hyx : y.2 ≤ x.2
    · rw [if_pos (by simpa using hyx)]
      rw [List.sorted_cons]
      refine ⟨?_, List.sorted_cons.mpr hl⟩
      intro z hz
      rcases List.mem_cons.mp hz with hzy | hzys
      · rw [hzy]
        exact hyx
      · exact le_trans (hl.1 z hzys) hyx
    · rw [if_neg (by simpa using hyx)]
      have hxy : x.2 ≤ y.2 := le_of_lt (lt_of_not_le hyx)
      rw [List.sorted_cons]
      refine ⟨?_, ih hl.2⟩
      intro z hz
      rcases List.mem_cons.mp ((insertSorted_perm _ x ys).mem_iff.mp hz) with hzx | hzys
      · rw [hzx]
        exact hxy
      · exact hl.1 z hzys

theorem sortScores_sorted (l : List (String × ℝ)) :
    List.Sorted (fun a b : String × ℝ => b.2 ≤ a.2) (sortScores l) := by
  unfold sortScores
  induction l with
  | nil => simp [sortBy]
  | cons x xs ih =>
    rw [sortBy]
    exact insertSorted_sorted x _ ih

/-! ### Query scoring -/

theorem queryStep_eq (v : List (String × ℝ)) (s : ℝ) (t : String) :
    queryStep v s t = s + ((v.lookup t).getD 0) := by
  rw [queryStep]
  cases hl : v.lookup t with
  | none => simp
  | some w =>
    by_cases hw : w = 0
    · subst hw
      simp
    · simp [hw]

theorem scoreOf_eq_sum (v : List (String × ℝ)) (terms : List String) :
    scoreOf v terms = (terms.map (fun t => ((v.lookup t).getD 0))).sum := by
  suffices H : ∀ s, terms.foldl (queryStep v) s
      = s + (terms.map (fun t => ((v.lookup t).getD 0))).sum by
    simpa [scoreOf] using H 0
  induction terms with
  | nil =>
    intro s
    simp
  | cons t ts ih =>
    intro s
    rw [List.foldl_cons, List.map_cons, List.sum_cons, ih, queryStep_eq]
    ring

theorem queryToUniqueTerms_nodup {q : Query} {terms : List String}
    (hq : queryToUniqueTerms q = some terms) : terms.Nodup := by
  cases q with
  | nonString =>
    obtain rfl := Option.some.inj hq
    exact List.nodup_nil
  | str s =>
    rw [queryToUniqueTerms] at hq
    by_cases hs : s.length > 0
    · rw [if_pos hs] at hq
      cases hw : textDocumentWords s with
      | none =>
        rw [hw] at hq
        cases hq
      | some ws =>
        rw [hw] at hq
        obtain rfl := Option.some.inj hq
        exact getUniqueTerms_nodup ws
    · rw [if_neg hs] at hq
      obtain rfl := Option.some.inj hq
      exact List.nodup_nil

/-- C4: a query that tokenizes to a non-empty term sequence scores every
document as the sum over the query's unique terms of that document's weight
(absent terms and out-of-vocabulary terms contribute 0, duplicates do not
double-count because the term list is duplicate-free), keeps only strictly
positive scores, and sorts the survivors in descending score order. -/
theorem getResultsForQuery_spec (c : Corpus) (q : Query) (terms : List String)
    (hq : queryToUniqueTerms q = some terms) (hne : terms ≠ []) :
    terms.Nodup ∧
    ∃ r, getResultsForQuery c q = .ok r ∧
      r.Perm (((getDocumentIdentifiers c).map (fun d =>
        (d, (terms.map (fun t =>
          ((((getDocumentVector c d).getD []).lookup t).getD 0))).sum))).filter
            (fun p => decide (0 < p.2))) ∧
      List.Sorted (fun a b : String × ℝ => b.2 ≤ a.2) r := by
  refine ⟨queryToUniqueTerms_nodup hq, ?_⟩
  simp only [getResultsForQuery, hq]
  rw [if_neg (by simpa [List.length_eq_zero] using hne)]
  refine ⟨_, rfl, ?_, sortScores_sorted _⟩
  refine (sortScores_perm _).trans ?_
  have hfun : (fun d => (d, scoreOf ((getDocumentVector c d).getD []) terms))
      = (fun d => (d, (terms.map (fun t =>
          ((((getDocumentVector c d).getD []).lookup t).getD 0))).sum)) :=
    funext (fun d => by rw [scoreOf_eq_sum])
  rw [hfun]

/-- Satisfiable-hypothesis check for C4: the query "bit test" tokenizes to the
non-empty duplicate-free term list. -/
theorem getResultsForQuery_spec_witness :
    queryToUniqueTerms (Query.str "bit test") = some ["bit", "test"] ∧
    (["bit", "test"] : List String).Nodup :=
  ⟨by decide,
    (getResultsForQuery_spec exampleCorpus (Query.str "bit test") ["bit", "test"]
      (by decide) (by decide)).1⟩

/-- C5 (amended): the empty-string query and a non-string query yield an empty
result list; `getDocumentVector` on an unknown identifier yields `undefined`
and `getTopTermsForDocument` an empty list; but `getCommonTerms` on an unknown
first identifier raises a `TypeError` instead of degrading. -/
theorem defensive_guards (c : Corpus) (id id2 : String) (m : Nat)
    (hid : id ∉ getDocumentIdentifiers c) :
    getResultsForQuery c (Query.str "") = .ok [] ∧
    getResultsForQuery c Query.nonString = .ok [] ∧
    getDocumentVector c id = none ∧
    getTopTermsForDocument c id m = [] ∧
    getCommonTerms c id id2 m = .error .typeError := by
  have hvec : getDocumentVector c id = none := by
    rw [getDocumentVector]
    cases hl : c.documents.lookup id with
    | none => rfl
    | some ws =>
      exact absurd (List.mem_map.mpr ⟨(id, ws), mem_of_lookup_eq_some hl, rfl⟩) hid
  refine ⟨rfl, rfl, hvec, ?_, ?_⟩
  · rw [getTopTermsForDocument, hvec]
  · rw [getCommonTerms, hvec]

/-- Satisfiable-hypothesis check for C5 at `exampleCorpus` and the unknown
identifier "zz". -/
theorem defensive_guards_witness :
    ("zz" ∉ getDocumentIdentifiers exampleCorpus) ∧
    (getResultsForQuery exampleCorpus (Query.str "") = .ok [] ∧
     getResultsForQuery exampleCorpus Query.nonString = .ok [] ∧
     getDocumentVector exampleCorpus "zz" = none ∧
     getTopTermsForDocument exampleCorpus "zz" 30 = [] ∧
     getCommonTerms exampleCorpus "zz" "d2" 10 = .error .typeError) :=
  ⟨by decide, defensive_guards exampleCorpus "zz" "d2" 30 (by decide)⟩

/-- C5 counterexample: `getCommonTerms` invoked with a document identifier not
present in the corpus calls `.entries()` on `undefined` and raises a
`TypeError`, so not every vector-returning operation degrades gracefully. -/
theorem getCommonTerms_unknown_id_raises :
    getCommonTerms exampleCorpus "zz" "d1" 10 = .error .typeError := by
  have hvec : getDocumentVector exampleCorpus "zz" = none := rfl
  rw [getCommonTerms, hvec]

/-! ### Common-terms symmetry -/

theorem lookup_isSome_of_mem_keys {α : Type} {l : List (String × α)} {k : String}
    (h : k ∈ l.map Prod.fst) : ∃ v, l.lookup k = some v := by
  induction l with
  | nil => simp at h
  | cons p rest ih =>
    obtain ⟨k', v'⟩ := p
    by_cases hk : k = k'
    · subst hk
      exact ⟨v', lookup_cons_self⟩
    · have hmem : k ∈ rest.map Prod.fst := by
        rw [List.map_cons] at h
        rcases List.mem_cons.mp h with hc | hc
        · exact absurd hc hk
        · exact hc
      obtain ⟨v, hv⟩ := ih hmem
      exact ⟨v, by rw [lookup_cons_ne hk, hv]⟩

theorem cfw_nodupKeys (c : Corpus) :
    ((collectionFrequencyWeights c).map Prod.fst).Nodup := by
  unfold collectionFrequencyWeights
  rw [List.map_map]
  exact cf_nodupKeys c

/-- The per-term weight function of `Corpus._calculateDocumentVectors`,
factored out of `documentVector`. -/
noncomputable def dvWeight (c : Corpus) (ws : List String) (t : String) (idf : ℝ) : ℝ :=
  if getTermFrequency ws t ≠ 0 then
    idf * (getTermFrequency ws t : ℝ) * (c.K1 + 1)
      / (c.K1 * (1 - c.b + c.b * ((getLength ws : ℝ) / avgDocLength c))
        + (getTermFrequency ws t : ℝ))
  else 0

theorem documentVector_eq_map (c : Corpus) (ws : List String) :
    documentVector c ws
      = (collectionFrequencyWeights c).map (fun p => (p.1, dvWeight c ws p.1 p.2)) := rfl

theorem map_mul_lookup_symm {l : List (String × ℝ)} (hnd : (l.map Prod.fst).Nodup)
    (F G : String → ℝ → ℝ) :
    (l.map (fun p => (p.1, F p.1 p.2))).map (fun p =>
      (p.1, p.2 * (((l.map (fun q => (q.1, G q.1 q.2))).lookup p.1).getD 0)))
    = (l.map (fun p => (p.1, G p.1 p.2))).map (fun p =>
      (p.1, p.2 * (((l.map (fun q => (q.1, F q.1 q.2))).lookup p.1).getD 0))) := by
  rw [List.map_map, List.map_map]
  apply List.map_eq_map_iff.mpr
  intro p hp
  have hmem : (p.1, p.2) ∈ l := by
    rw [Prod.mk.eta]
    exact hp
  have hself : l.lookup p.1 = some p.2 := lookup_eq_of_mem_of_nodupKeys hnd hmem
  have hF : (l.map (fun q => (q.1, F q.1 q.2))).lookup p.1 = some (F p.1 p.2) := by
    rw [lookup_map_snd l F p.1, hself]
    rfl
  have hG : (l.map (fun q => (q.1, G q.1 q.2))).lookup p.1 = some (G p.1 p.2) := by
    rw [lookup_map_snd l G p.1, hself]
    rfl
  simp only [Function.comp_apply, hF, hG, Option.getD_some]
  rw [mul_comm]

/-- C8: for two document identifiers present in the corpus, `getCommonTerms`
is symmetric — the two calls return literally the same (term, score) pairs,
because each score is the commutative product of the two documents' weights
and both vectors enumerate the vocabulary in the same order. -/
theorem getCommonTerms_symm (c : Corpus) (a b : String) (m : Nat)
    (ha : a ∈ getDocumentIdentifiers c) (hb : b ∈ getDocumentIdentifiers c) :
    getCommonTerms c a b m = getCommonTerms c b a m := by
  obtain ⟨wsa, hla⟩ := lookup_isSome_of_mem_keys (l := c.documents) ha
  obtain ⟨wsb, hlb⟩ := lookup_isSome_of_mem_keys (l := c.documents) hb
  have hva : getDocumentVector c a = some (documentVector c wsa) := by
    rw [getDocumentVector, hla]
    rfl
  have hvb : getDocumentVector c b = some (documentVector c wsb) := by
    rw [getDocumentVector, hlb]
    rfl
  simp only [getCommonTerms, hva, hvb]
  have hsym := map_mul_lookup_symm (cfw_nodupKeys c) (dvWeight c wsa) (dvWeight c wsb)
  rw [documentVector_eq_map c wsa, documentVector_eq_map c wsb, hsym]

/-- Satisfiable-hypothesis check for C8 at the two documents of
`exampleCorpus`. -/
theorem getCommonTerms_symm_witness :
    ("d1" ∈ getDocumentIdentifiers exampleCorpus) ∧
    ("d2" ∈ getDocumentIdentifiers exampleCorpus) ∧
    getCommonTerms exampleCorpus "d1" "d2" 10 = getCommonTerms exampleCorpus "d2" "d1" 10 :=
  ⟨by decide, by decide,
    getCommonTerms_symm exampleCorpus "d1" "d2" 10 (by decide) (by decide)⟩

/-! ### Cosine similarity -/

theorem weightOf_nonneg {v : List (String × ℝ)} (h : ∀ p ∈ v, 0 ≤ p.2) (t : String) :
    0 ≤ weightOf v t := by
  rw [weightOf]
  cases hl : v.lookup t with
  | none => simp
  | some w => simpa using h (t, w) (mem_of_lookup_eq_some hl)

theorem normOver_nonneg (ks : List String) (v : List (String × ℝ)) :
    0 ≤ normOver ks v := Real.sqrt_nonneg _

theorem simKeys_nodup (v1 v2 : List (String × ℝ)) : (simKeys v1 v2).Nodup :=
  List.nodup_dedup _

theorem cosineSimilarity_bounds {v1 v2 : List (String × ℝ)}
    (h1 : ∀ p ∈ v1, 0 ≤ p.2) (h2 : ∀ p ∈ v2, 0 ≤ p.2) :
    0 ≤ cosineSimilarity v1 v2 ∧ cosineSimilarity v1 v2 ≤ 1 := by
  rw [cosineSimilarity]
  by_cases h : normOver (simKeys v1 v2) v1 = 0 ∨ normOver (simKeys v1 v2) v2 = 0
  · rw [if_pos h]
    exact ⟨le_refl 0, zero_le_one⟩
  · rw [if_neg h]
    push_neg at h
    have hn1 : 0 < normOver (simKeys v1 v2) v1 :=
      lt_of_le_of_ne (normOver_nonneg _ _) (Ne.symm h.1)
    have hn2 : 0 < normOver (simKeys v1 v2) v2 :=
      lt_of_le_of_ne (normOver_nonneg _ _) (Ne.symm h.2)
    have hdot : 0 ≤ dotProduct v1 v2 := by
      rw [dotProduct]
      apply List.sum_nonneg
      intro x hx
      obtain ⟨t, ht, rfl⟩ := List.mem_map.mp hx
      exact mul_nonneg (weightOf_nonneg h1 t) (weightOf_nonneg h2 t)
    refine ⟨div_nonneg hdot (le_of_lt (mul_pos hn1 hn2)), ?_⟩
    rw [div_le_one (mul_pos hn1 hn2)]
    have hnd := simKeys_nodup v1 v2
    have hdot' : dotProduct v1 v2
        = ∑ t in (simKeys v1 v2).toFinset, weightOf v1 t * weightOf v2 t := by
      rw [dotProduct]
      exact (List.sum_toFinset _ hnd).symm
    have hn1' : normOver (simKeys v1 v2) v1
        = Real.sqrt (∑ t in (simKeys v1 v2).toFinset, weightOf v1 t ^ 2) := by
      rw [normOver, List.sum_toFinset _ hnd]
    have hn2' : normOver (simKeys v1 v2) v2
        = Real.sqrt (∑ t in (simKeys v1 v2).toFinset, weightOf v2 t ^ 2) := by
      rw [normOver, List.sum_toFinset _ hnd]
    rw [hdot', hn1', hn2']
    exact Real.sum_mul_le_sqrt_mul_sqrt _ _ _

theorem simKeys_perm (v1 v2 : List (String × ℝ)) :
    (simKeys v1 v2).Perm (simKeys v2 v1) := by
  apply (List.perm_ext_iff_of_nodup (simKeys_nodup v1 v2) (simKeys_nodup v2 v1)).mpr
  intro a
  rw [simKeys, simKeys, List.mem_dedup, List.mem_dedup, List.mem_append, List.mem_append]
  exact Or.comm

theorem normOver_perm {ks ks' : List String} (h : ks.Perm ks') (v : List (String × ℝ)) :
    normOver ks v = normOver ks' v := by
  rw [normOver, normOver, (h.map _).sum_eq]

theorem dotProduct_comm (v1 v2 : List (String × ℝ)) :
    dotProduct v1 v2 = dotProduct v2 v1 := by
  rw [dotProduct, dotProduct]
  rw [← ((simKeys_perm v1 v2).map (fun t => weightOf v2 t * weightOf v1 t)).sum_eq]
  apply congrArg List.sum
  apply List.map_eq_map_iff.mpr
  intro t _
  exact mul_comm _ _

theorem cosineSimilarity_comm (v1 v2 : List (String × ℝ)) :
    cosineSimilarity v1 v2 = cosineSimilarity v2 v1 := by
  rw [cosineSimilarity, cosineSimilarity]
  have hperm := simKeys_perm v1 v2
  rw [normOver_perm hperm v1, normOver_perm hperm v2, dotProduct_comm]
  by_cases h : normOver (simKeys v2 v1) v1 = 0 ∨ normOver (simKeys v2 v1) v2 = 0
  · rw [if_pos h, if_pos (Or.symm h)]
  · rw [if_neg h, if_neg (fun hc => h (Or.symm hc))]
    rw [mul_comm]

theorem cosineSimilarity_self {v : List (String × ℝ)}
    (h : normOver (simKeys v v) v ≠ 0) : cosineSimilarity v v = 1 := by
  rw [cosineSimilarity, if_neg (fun hc => h (hc.elim id id))]
  have hs : dotProduct v v = ((simKeys v v).map (fun t => weightOf v t ^ 2)).sum := by
    rw [dotProduct]
    apply congrArg List.sum
    apply List.map_eq_map_iff.mpr
    intro t _
    rw [sq]
  have hsum_nonneg : 0 ≤ ((simKeys v v).map (fun t => weightOf v t ^ 2)).sum := by
    apply List.sum_nonneg
    intro x hx
    obtain ⟨t, _, rfl⟩ := List.mem_map.mp hx
    exact sq_nonneg _
  rw [hs, normOver, Real.mul_self_sqrt hsum_nonneg]
  apply div_self
  intro hc
  apply h
  rw [normOver, hc, Real.sqrt_zero]

/-! ### Non-negativity of BM25 weights -/

theorem avgDocLength_nonneg (c : Corpus) : 0 ≤ avgDocLength c := by
  rw [avgDocLength]
  apply div_nonneg
  · apply List.sum_nonneg
    intro x hx
    obtain ⟨p, _, rfl⟩ := List.mem_map.mp hx
    exact Nat.cast_nonneg _
  · exact Nat.cast_nonneg _

theorem cfw_entry_nonneg {c : Corpus} {t : String} {idf : ℝ}
    (h : (t, idf) ∈ collectionFrequencyWeights c) : 0 ≤ idf := by
  rw [collectionFrequencyWeights] at h
  obtain ⟨⟨t0, n⟩, hmem, heq⟩ := List.mem_map.mp h
  obtain ⟨rfl, rfl⟩ := Prod.mk.injEq _ _ _ _ ▸ heq
  have hb := cf_entry_bounds hmem
  have h1 : (0 : ℝ) < (n : ℝ) := by
    exact_mod_cast Nat.lt_of_lt_of_le Nat.zero_lt_one hb.1
  have h2 : (n : ℝ) ≤ (c.documents.length : ℝ) + 1 := by
    have hc2 : (n : ℝ) ≤ (c.documents.length : ℝ) := by exact_mod_cast hb.2
    linarith
  have := Real.log_le_log h1 h2
  linarith

theorem dvWeight_nonneg {c : Corpus} (hK : 0 ≤ c.K1) (hb0 : 0 ≤ c.b) (hb1 : c.b ≤ 1)
    {ws : List String} {t : String} {idf : ℝ} (hidf : 0 ≤ idf) :
    0 ≤ dvWeight c ws t idf := by
  rw [dvWeight]
  by_cases h : getTermFrequency ws t ≠ 0
  · rw [if_pos h]
    have hndl : 0 ≤ (getLength ws : ℝ) / avgDocLength c :=
      div_nonneg (Nat.cast_nonneg _) (avgDocLength_nonneg c)
    have hpar : 0 ≤ 1 - c.b + c.b * ((getLength ws : ℝ) / avgDocLength c) := by
      have := mul_nonneg hb0 hndl
      linarith
    apply div_nonneg
    · apply mul_nonneg (mul_nonneg hidf (Nat.cast_nonneg _))
      linarith
    · exact add_nonneg (mul_nonneg hK hpar) (Nat.cast_nonneg _)
  · rw [if_neg h]

theorem documentVector_entry_nonneg {c : Corpus} (hK : 0 ≤ c.K1) (hb0 : 0 ≤ c.b)
    (hb1 : c.b ≤ 1) (ws : List String) :
    ∀ p ∈ documentVector c ws, 0 ≤ p.2 := by
  intro p hp
  rw [documentVector_eq_map] at hp
  obtain ⟨⟨t, idf⟩, hmem, rfl⟩ := List.mem_map.mp hp
  exact dvWeight_nonneg hK hb0 hb1 (cfw_entry_nonneg hmem)

theorem documentVector_nodupKeys (c : Corpus) (ws : List String) :
    ((documentVector c ws).map Prod.fst).Nodup := by
  rw [documentVector_eq_map, List.map_map]
  exact cfw_nodupKeys c

theorem normOver_simKeys_ne_zero {v : List (String × ℝ)}
    (hnd : (v.map Prod.fst).Nodup) {t : String} {w : ℝ}
    (hmem : (t, w) ∈ v) (hw : w ≠ 0) :
    normOver (simKeys v v) v ≠ 0 := by
  have htk : t ∈ simKeys v v := by
    rw [simKeys, List.mem_dedup, List.mem_append]
    left
    rw [nonzeroKeys]
    exact List.mem_map.mpr ⟨(t, w), List.mem_filter.mpr ⟨hmem, by simpa using hw⟩, rfl⟩
  have hwt : weightOf v t = w := by
    rw [weightOf, lookup_eq_of_mem_of_nodupKeys hnd hmem]
    rfl
  have hnd' := simKeys_nodup v v
  have hpos : 0 < ((simKeys v v).map (fun s => weightOf v s ^ 2)).sum := by
    rw [(List.sum_toFinset (fun s => weightOf v s ^ 2) hnd').symm]
    have hle : weightOf v t ^ 2 ≤ ∑ s in (simKeys v v).toFinset, weightOf v s ^ 2 :=
      @Finset.single_le_sum String ℝ _ (fun s => weightOf v s ^ 2)
        ((simKeys v v).toFinset) (fun i _ => sq_nonneg _) t (List.mem_toFinset.mpr htk)
    have hwpos : 0 < weightOf v t ^ 2 := by
      rw [hwt]
      exact lt_of_le_of_ne (sq_nonneg w) (Ne.symm (pow_ne_zero 2 hw))
    linarith
  rw [normOver]
  exact ne_of_gt (Real.sqrt_pos.mpr hpos)

/-! ### Distance matrix -/

theorem getDistanceMatrix_entry (c : Corpus) {i j : Nat}
    (hi : i < (getDocumentIdentifiers c).length)
    (hj : j < (getDocumentIdentifiers c).length) :
    (((getDistanceMatrix c).2.getD i []).getD j 0)
      = 1 - cosineSimilarity
          ((getDocumentVector c ((getDocumentIdentifiers c).getD i "")).getD [])
          ((getDocumentVector c ((getDocumentIdentifiers c).getD j "")).getD []) := by
  have h2 : (getDistanceMatrix c).2 = (getDocumentIdentifiers c).map (fun a =>
      (getDocumentIdentifiers c).map (fun b =>
        1 - cosineSimilarity ((getDocumentVector c a).getD [])
          ((getDocumentVector c b).getD []))) := rfl
  have hrow : (getDistanceMatrix c).2.getD i []
      = (getDocumentIdentifiers c).map (fun b =>
          1 - cosineSimilarity
            ((getDocumentVector c ((getDocumentIdentifiers c).getD i "")).getD [])
            ((getDocumentVector c b).getD [])) := by
    rw [h2, List.getD_eq_getElem _ _ (by simpa using hi), List.getElem_map,
      List.getD_eq_getElem _ _ hi]
  rw [hrow, List.getD_eq_getElem _ _ (by simpa using hj), List.getElem_map,
    List.getD_eq_getElem _ _ hj]

/-- C7 (amended): every entry of `getDistanceMatrix` equals
`1 - cosineSimilarity` of the corresponding two document vectors; the matrix
is symmetric; under the documented parameter ranges `K1 ≥ 0` and `b ∈ [0, 1]`
every entry lies in `[0, 1]`; and a diagonal entry is 0 provided the
document's vector assigns a non-zero weight to at least one term.  (A document
whose vector is identically zero — for instance one consisting only of
stopwords — instead has cosine similarity 0 with itself by the zero-norm
convention, hence diagonal entry 1.) -/
theorem getDistanceMatrix_spec (c : Corpus) (i j : Nat)
    (hK : 0 ≤ c.K1) (hb0 : 0 ≤ c.b) (hb1 : c.b ≤ 1)
    (hi : i < (getDistanceMatrix c).1.length) (hj : j < (getDistanceMatrix c).1.length) :
    ((((getDistanceMatrix c).2.getD i []).getD j 0)
        = 1 - cosineSimilarity
            ((getDocumentVector c ((getDistanceMatrix c).1.getD i "")).getD [])
            ((getDocumentVector c ((getDistanceMatrix c).1.getD j "")).getD [])) ∧
    (((getDistanceMatrix c).2.getD i []).getD j 0
        = ((getDistanceMatrix c).2.getD j []).getD i 0) ∧
    (0 ≤ (((getDistanceMatrix c).2.getD i []).getD j 0)) ∧
    ((((getDistanceMatrix c).2.getD i []).getD j 0) ≤ 1) ∧
    (i = j → (∃ p ∈ (getDocumentVector c ((getDistanceMatrix c).1.getD i "")).getD [],
        p.2 ≠ 0) → (((getDistanceMatrix c).2.getD i []).getD j 0) = 0) := by
  have hids : (getDistanceMatrix c).1 = getDocumentIdentifiers c := rfl
  rw [hids] at hi hj ⊢
  have hveci : ∀ k : Nat, k < (getDocumentIdentifiers c).length →
      ∃ ws, (getDocumentVector c ((getDocumentIdentifiers c).getD k "")).getD []
        = documentVector c ws := by
    intro k hk
    have hkmem : (getDocumentIdentifiers c).getD k "" ∈ getDocumentIdentifiers c := by
      rw [List.getD_eq_getElem _ _ hk]
      exact List.getElem_mem hk
    obtain ⟨ws, hws⟩ :=
      lookup_isSome_of_mem_keys (l := c.documents) hkmem
    refine ⟨ws, ?_⟩
    rw [getDocumentVector, hws]
    rfl
  obtain ⟨wsi, hwsi⟩ := hveci i hi
  obtain ⟨wsj, hwsj⟩ := hveci j hj
  have hnni := documentVector_entry_nonneg hK hb0 hb1 wsi
  have hnnj := documentVector_entry_nonneg hK hb0 hb1 wsj
  have hent := getDistanceMatrix_entry c hi hj
  have hent' := getDistanceMatrix_entry c hj hi
  refine ⟨hent, ?_, ?_, ?_, ?_⟩
  · rw [hent, hent', hwsi, hwsj, cosineSimilarity_comm]
  · rw [hent, hwsi, hwsj]
    have := (cosineSimilarity_bounds hnni hnnj).2
    linarith
  · rw [hent, hwsi, hwsj]
    have := (cosineSimilarity_bounds hnni hnnj).1
    linarith
  · intro hij hex
    subst hij
    obtain ⟨p, hpmem, hpne⟩ := hex
    rw [hwsi] at hpmem
    rw [hent, hwsi]
    have hone : cosineSimilarity (documentVector c wsi) (documentVector c wsi) = 1 := by
      apply cosineSimilarity_self
      exact normOver_simKeys_ne_zero (documentVector_nodupKeys c wsi)
        (by rw [← Prod.mk.eta (p := p)] at hpmem; exact hpmem) hpne
    rw [hone]
    ring

/-- Satisfiable-hypothesis check for C7 at `exampleCorpus` (K1 = 2, b = 3/4)
and the top-left matrix entry. -/
theorem getDistanceMatrix_spec_witness :
    (0 ≤ exampleCorpus.K1) ∧ (0 ≤ exampleCorpus.b) ∧ (exampleCorpus.b ≤ 1) ∧
    (0 < (getDistanceMatrix exampleCorpus).1.length) ∧
    (0 ≤ (((getDistanceMatrix exampleCorpus).2.getD 0 []).getD 0 0)) :=
  ⟨by norm_num [exampleCorpus], by norm_num [exampleCorpus], by norm_num [exampleCorpus],
    by decide,
    (getDistanceMatrix_spec exampleCorpus 0 0 (by norm_num [exampleCorpus])
      (by norm_num [exampleCorpus]) (by norm_num [exampleCorpus])
      (by decide) (by decide)).2.2.1⟩

/-- A corpus whose first document consists only of the stopword "and": that
document's BM25 vector assigns weight 0 to every vocabulary term. -/
noncomputable def degenerateCorpus : Corpus :=
  { documents := [("d1", ["and"]), ("d2", ["test"])],
    stopwords := ["and"], K1 := 2, b := 3 / 4 }

/-- C7 counterexample: in `degenerateCorpus` the vector of document d1 is
identically zero, its cosine similarity with itself is 0 by the zero-norm
convention, and the diagonal entry of the distance matrix is 1, not 0. -/
theorem distanceMatrix_diagonal_not_zero :
    (((getDistanceMatrix degenerateCorpus).2.getD 0 []).getD 0 0) = 1 := by
  have hv1 : (getDocumentVector degenerateCorpus "d1").getD []
      = [("test", (0 : ℝ))] := rfl
  have hnz : nonzeroKeys [("test", (0 : ℝ))] = [] := by
    simp [nonzeroKeys]
  have hsk : simKeys [("test", (0 : ℝ))] [("test", (0 : ℝ))] = [] := by
    rw [simKeys, hnz]
    rfl
  have hcos : cosineSimilarity [("test", (0 : ℝ))] [("test", (0 : ℝ))] = 0 := by
    rw [cosineSimilarity, if_pos]
    left
    rw [normOver, hsk]
    simp
  have hent := getDistanceMatrix_entry degenerateCorpus
    (i := 0) (j := 0) (by decide) (by decide)
  have hid0 : (getDocumentIdentifiers degenerateCorpus).getD 0 "" = "d1" := rfl
  rw [hent, hid0, hv1, hcos]
  norm_num

end TinyTfidf
